import Mathlib

/-!
Shallow embedding of the clox virtual machine core (src/vm.c) used to check
the specification's claims about the interpreter: upvalue capture and
closing, the call protocol, global-variable assignment, inheritance,
jumps, and the stack effects of the upvalue opcodes.

Machine doubles are abstracted as a type parameter `Dbl` (the C code only
moves them around and adds them here); theorems are stated for every such
type and witnesses instantiate it with `Int`.

Heap pointers are modelled as natural-number ids into per-kind heaps
(`Nat → obj` functions plus an allocation counter); the C `Value*` stack
pointers that upvalues hold become indices into the value-stack list.
-/

namespace Clox

/-- Tagged runtime value, mirroring clox's `Value` union: nil, booleans,
numbers, and references to heap objects (strings are interned, so a string
value is identified by its contents). -/
inductive Value (Dbl : Type) where
  | nil
  | bool (b : Bool)
  | num (d : Dbl)
  | str (s : String)
  | closure (id : Nat)
  | klass (id : Nat)
  | inst (id : Nat)
  | bound (id : Nat)
  | native (id : Nat)
  | func (id : Nat)
deriving DecidableEq

instance {Dbl : Type} : Inhabited (Value Dbl) := ⟨Value.nil⟩

/-- Modelled from the spec: the hash-table primitive (table.c is not part
of the given sources) is a map from interned-string keys to values with
`get`, `set` (returning "was new?"), `delete` and `addAll`. We model it as
an association list with at most one entry per key. -/
def Table (Dbl : Type) : Type := List (String × Value Dbl)

instance {Dbl : Type} : Inhabited (Table Dbl) := ⟨([] : List (String × Value Dbl))⟩

/-- Modelled from the spec: `tableGet` looks a key up. -/
def tableGet {Dbl : Type} (t : Table Dbl) (k : String) : Option (Value Dbl) :=
  match t with
  | [] => none
  | e :: rest => if e.1 = k then some e.2 else tableGet rest k

/-- Modelled from the spec: `tableSet` inserts or updates and reports
whether the key was new. -/
def tableSet {Dbl : Type} (t : Table Dbl) (k : String) (v : Value Dbl) :
    Bool × Table Dbl :=
  match t with
  | [] => (true, [(k, v)])
  | e :: rest =>
    if e.1 = k then (false, (k, v) :: rest)
    else
      let r := tableSet rest k v
      (r.1, e :: r.2)

/-- Modelled from the spec: `tableDelete` removes a key's entry. -/
def tableDelete {Dbl : Type} (t : Table Dbl) (k : String) : Table Dbl :=
  match t with
  | [] => []
  | e :: rest => if e.1 = k then rest else e :: tableDelete rest k

/-- Modelled from the spec: `tableAddAll` copies every entry of `src` into
`dst` (a `tableSet` per entry). -/
def tableAddAll {Dbl : Type} (src dst : Table Dbl) : Table Dbl :=
  src.foldl (fun acc e => (tableSet acc e.1 e.2).2) dst

/-- An `ObjFunction`: arity, upvalue count, bytecode chunk (code bytes,
line array, constant pool) and optional name. -/
structure FunctionObj (Dbl : Type) where
  arity : Nat
  upvalueCount : Nat
  code : List Nat
  lines : List Nat
  constants : List (Value Dbl)
  name : Option String

instance {Dbl : Type} : Inhabited (FunctionObj Dbl) := ⟨⟨0, 0, [], [], [], none⟩⟩

/-- An `ObjClosure`: its function plus the ids of its captured upvalues. -/
structure ClosureObj (Dbl : Type) where
  fn : FunctionObj Dbl
  upvalues : List Nat

instance {Dbl : Type} : Inhabited (ClosureObj Dbl) := ⟨⟨default, []⟩⟩

/-- An `ObjUpvalue`: open (`location` points at a stack slot) or closed
(`location` was redirected to the owned `closed` field). -/
inductive UpvalObj (Dbl : Type) where
  | openAt (loc : Nat)
  | closed (v : Value Dbl)
deriving DecidableEq

instance {Dbl : Type} : Inhabited (UpvalObj Dbl) := ⟨UpvalObj.closed Value.nil⟩

/-- An `ObjClass`: name and method table. -/
structure ClassObj (Dbl : Type) where
  name : String
  methods : Table Dbl

instance {Dbl : Type} : Inhabited (ClassObj Dbl) := ⟨⟨"", ([] : List (String × Value Dbl))⟩⟩

/-- An `ObjInstance`: its class and field table. -/
structure InstObj (Dbl : Type) where
  klass : Nat
  fields : Table Dbl

instance {Dbl : Type} : Inhabited (InstObj Dbl) := ⟨⟨0, ([] : List (String × Value Dbl))⟩⟩

/-- An `ObjBoundMethod`: receiver value and method closure id. -/
structure BoundObj (Dbl : Type) where
  receiver : Value Dbl
  method : Nat

instance {Dbl : Type} : Inhabited (BoundObj Dbl) := ⟨⟨Value.nil, 0⟩⟩

/-- A `CallFrame`: closure id, instruction pointer (index into the
function's code) and `slots`, the frame's base index into the value
stack. -/
structure CallFrame where
  closure : Nat
  ip : Nat
  slots : Nat
deriving DecidableEq

instance : Inhabited CallFrame := ⟨⟨0, 0, 0⟩⟩

/-- The VM state: the value stack (index 0 is the bottom; the C
`stackTop` is the list's length), the frame stack (index 0 is the
outermost frame, as in the C array), the open-upvalue list (head is the
one with the highest stack address), the object heaps with their
allocation counters, the globals table and the diagnostic-stream lines
written so far. -/
structure VMState (Dbl : Type) where
  stack : List (Value Dbl)
  frames : List CallFrame
  openUpvalues : List Nat
  upvalHeap : Nat → UpvalObj Dbl
  nextUpval : Nat
  closureHeap : Nat → ClosureObj Dbl
  classHeap : Nat → ClassObj Dbl
  instHeap : Nat → InstObj Dbl
  nextInst : Nat
  boundHeap : Nat → BoundObj Dbl
  nativeHeap : Nat → Nat → List (Value Dbl) → Value Dbl
  globals : Table Dbl
  errLines : List String

/-- FRAMES_MAX from vm.h (default 64 per the spec). -/
def FRAMES_MAX : Nat := 64

/-- vm.c `push`. -/
def push {Dbl : Type} (s : VMState Dbl) (v : Value Dbl) : VMState Dbl :=
  { s with stack := s.stack ++ [v] }

/-- vm.c `pop`: returns the former top and the new state. -/
def pop {Dbl : Type} (s : VMState Dbl) : Value Dbl × VMState Dbl :=
  (s.stack.getLastD Value.nil, { s with stack := s.stack.dropLast })

/-- vm.c `peek(distance)`. -/
def peek {Dbl : Type} (s : VMState Dbl) (distance : Nat) : Value Dbl :=
  s.stack.getD (s.stack.length - 1 - distance) Value.nil

/-- vm.c `resetStack`: empties the value stack, the frame stack and the
open-upvalue list. -/
def resetStack {Dbl : Type} (s : VMState Dbl) : VMState Dbl :=
  { s with stack := [], frames := [], openUpvalues := [] }

/-- The stack-trace line `runtimeError` prints for one frame:
the line of the previously executed byte, then the function name or
`script`. -/
def frameTraceLine {Dbl : Type} (s : VMState Dbl) (f : CallFrame) : String :=
  let fn := (s.closureHeap f.closure).fn
  "[line " ++ toString (fn.lines.getD (f.ip - 1) 0) ++ "] in " ++
    (match fn.name with
     | none => "script"
     | some n => n ++ "()")

/-- The stack trace `runtimeError` prints: frames from `frameCount - 1`
down to `0`, i.e. innermost first. -/
def stackTraceLines {Dbl : Type} (s : VMState Dbl) : List String :=
  (s.frames.map (frameTraceLine s)).reverse

/-- vm.c `runtimeError`: writes the message and the stack trace to the
diagnostic stream, then resets the stacks. -/
def runtimeError {Dbl : Type} (s : VMState Dbl) (msg : String) : VMState Dbl :=
  resetStack { s with errLines := s.errLines ++ [msg] ++ stackTraceLines s }

/-- The formatted arity-mismatch message of vm.c `call`. -/
def expectedArgsMsg (arity got : Nat) : String :=
  "Expected " ++ toString arity ++ " arguments but got " ++ toString got ++ "."

/-- The formatted undefined-variable message. -/
def undefinedVarMsg (name : String) : String :=
  "Undefined variable \x27" ++ name ++ "\x27."

/-- vm.c `call`: arity check, then frame-capacity check, then push a new
frame whose `slots` base is `stackTop - argCount - 1`. -/
def call {Dbl : Type} (s : VMState Dbl) (closureId argCount : Nat) :
    Bool × VMState Dbl :=
  let fn := (s.closureHeap closureId).fn
  if argCount ≠ fn.arity then
    (false, runtimeError s (expectedArgsMsg fn.arity argCount))
  else if s.frames.length = FRAMES_MAX then
    (false, runtimeError s "Stack overflow.")
  else
    (true, { s with
      frames := s.frames ++ [⟨closureId, 0, s.stack.length - (argCount + 1)⟩] })

/-- AS_CLOSURE on a value known to be a closure (unchecked in C). -/
def asClosureId {Dbl : Type} : Value Dbl → Nat
  | Value.closure id => id
  | _ => 0

/-- Overwrite stack slot `i` in place (a `vm.stackTop[-argCount-1] = v`
style write). -/
def setStackAt {Dbl : Type} (s : VMState Dbl) (i : Nat) (v : Value Dbl) :
    VMState Dbl :=
  { s with stack := s.stack.set i v }

/-- vm.c `callValue`: dispatch on the callee's kind. -/
def callValue {Dbl : Type} (s : VMState Dbl) (callee : Value Dbl)
    (argCount : Nat) : Bool × VMState Dbl :=
  match callee with
  | Value.bound bid =>
    let b := s.boundHeap bid
    let s1 := setStackAt s (s.stack.length - (argCount + 1)) b.receiver
    call s1 b.method argCount
  | Value.klass kid =>
    let instId := s.nextInst
    let s1 := { s with
      instHeap := Function.update s.instHeap instId ⟨kid, ([] : List (String × Value Dbl))⟩,
      nextInst := instId + 1 }
    let s2 := setStackAt s1 (s1.stack.length - (argCount + 1)) (Value.inst instId)
    match tableGet (s2.classHeap kid).methods "init" with
    | some ini => call s2 (asClosureId ini) argCount
    | none =>
      if argCount ≠ 0 then
        (false, runtimeError s2 (expectedArgsMsg 0 argCount))
      else (true, s2)
  | Value.closure cid => call s cid argCount
  | Value.native nid =>
    let nf := s.nativeHeap nid
    let result := nf argCount (s.stack.drop (s.stack.length - argCount))
    let s1 := { s with stack := s.stack.take (s.stack.length - (argCount + 1)) }
    (true, push s1 result)
  | _ => (false, runtimeError s "Can only call functions and classes.")

/-- The walk of vm.c `captureUpvalue` over the open list: skip nodes whose
`location` is above `slotPtr`; if a node with `location == slotPtr` is found
return its id and leave the list alone (`false` = nothing allocated);
otherwise splice the fresh id `newId` in before the first remaining node
(`true` = a new upvalue must be allocated at `newId`). A closed node
(never present under the list invariant) stops the walk like a
non-matching one. -/
def captureIds {Dbl : Type} (heap : Nat → UpvalObj Dbl) (newId slotPtr : Nat) :
    List Nat → Nat × List Nat × Bool
  | [] => (newId, [newId], true)
  | id :: rest =>
    match heap id with
    | UpvalObj.openAt l =>
      if slotPtr < l then
        let r := captureIds heap newId slotPtr rest
        (r.1, id :: r.2.1, r.2.2)
      else if l = slotPtr then (id, id :: rest, false)
      else (newId, newId :: id :: rest, true)
    | UpvalObj.closed _ => (newId, newId :: id :: rest, true)

/-- vm.c `captureUpvalue`: return a shared open upvalue for `slotPtr` when
one exists, else allocate a fresh one and splice it into the open list in
decreasing-address position. -/
def captureUpvalue {Dbl : Type} (s : VMState Dbl) (slotPtr : Nat) :
    Nat × VMState Dbl :=
  let r := captureIds s.upvalHeap s.nextUpval slotPtr s.openUpvalues
  if r.2.2 then
    (r.1, { s with
      openUpvalues := r.2.1,
      upvalHeap := Function.update s.upvalHeap s.nextUpval (UpvalObj.openAt slotPtr),
      nextUpval := s.nextUpval + 1 })
  else (r.1, { s with openUpvalues := r.2.1 })

/-- The loop of vm.c `closeUpvalues`: while the head's `location >= last`,
move the stack value it points to into the upvalue's `closed` field
(redirecting `location` there) and advance the head. -/
def closeList {Dbl : Type} (stack : List (Value Dbl)) (last : Nat) :
    List Nat → (Nat → UpvalObj Dbl) → List Nat × (Nat → UpvalObj Dbl)
  | [], heap => ([], heap)
  | id :: rest, heap =>
    match heap id with
    | UpvalObj.openAt l =>
      if last ≤ l then
        closeList stack last rest
          (Function.update heap id (UpvalObj.closed (stack.getD l Value.nil)))
      else (id :: rest, heap)
    | UpvalObj.closed _ => (id :: rest, heap)

/-- vm.c `closeUpvalues(last)`. -/
def closeUpvalues {Dbl : Type} (s : VMState Dbl) (last : Nat) : VMState Dbl :=
  let r := closeList s.stack last s.openUpvalues s.upvalHeap
  { s with openUpvalues := r.1, upvalHeap := r.2 }

/-- Read through an upvalue's `location`: the stack slot while open, the
owned `closed` field after closing. -/
def upvalRead {Dbl : Type} (s : VMState Dbl) (id : Nat) : Value Dbl :=
  match s.upvalHeap id with
  | UpvalObj.openAt l => s.stack.getD l Value.nil
  | UpvalObj.closed v => v

/-- Write through an upvalue's `location`: into the stack slot while
open, into the owned `closed` field after closing. -/
def upvalWrite {Dbl : Type} (s : VMState Dbl) (id : Nat) (v : Value Dbl) :
    VMState Dbl :=
  match s.upvalHeap id with
  | UpvalObj.openAt l => { s with stack := s.stack.set l v }
  | UpvalObj.closed _ =>
    { s with upvalHeap := Function.update s.upvalHeap id (UpvalObj.closed v) }

/-- AS_CLASS on a value known to be a class (unchecked in C). -/
def asClassId {Dbl : Type} : Value Dbl → Nat
  | Value.klass id => id
  | _ => 0

/-- vm.c `defineMethod(name)`: store `peek(0)` (the closure) into the
method table of the class at `peek(1)`, then pop the closure. -/
def defineMethod {Dbl : Type} (s : VMState Dbl) (name : String) : VMState Dbl :=
  let method := peek s 0
  let kid := asClassId (peek s 1)
  let k := s.classHeap kid
  let s1 := { s with
    classHeap := Function.update s.classHeap kid
      { k with methods := (tableSet k.methods name method).2 } }
  (pop s1).2

/-- vm.c `isFalsey`: nil and false are falsey, everything else truthy. -/
def isFalsey {Dbl : Type} : Value Dbl → Bool
  | Value.nil => true
  | Value.bool b => !b
  | _ => false

/-- True exactly on string values. -/
def isStringV {Dbl : Type} : Value Dbl → Bool
  | Value.str _ => true
  | _ => false

/-- True exactly on number values. -/
def isNumberV {Dbl : Type} : Value Dbl → Bool
  | Value.num _ => true
  | _ => false

/-- AS_STRING on a value known to be a string (unchecked in C). -/
def asStringV {Dbl : Type} : Value Dbl → String
  | Value.str s => s
  | _ => ""

/-- AS_NUMBER on a value known to be a number (unchecked in C). -/
def asNumber {Dbl : Type} [Inhabited Dbl] : Value Dbl → Dbl
  | Value.num d => d
  | _ => default

/-- vm.c `concatenate`: build the concatenation of the two string
operands, intern it (`takeString` — in the model an interned string is
its contents), pop both operands and push the result. -/
def concatenate {Dbl : Type} (s : VMState Dbl) : VMState Dbl :=
  let b := asStringV (peek s 0)
  let a := asStringV (peek s 1)
  push { s with stack := s.stack.dropLast.dropLast } (Value.str (a ++ b))

/-- The cached `frame` local of `run`: the topmost call frame
(`&vm.frames[vm.frameCount - 1]`). -/
def currentFrame {Dbl : Type} (s : VMState Dbl) : CallFrame :=
  s.frames.getLastD default

/-- Replace the topmost frame's instruction pointer. -/
def setFrameIp {Dbl : Type} (s : VMState Dbl) (ip : Nat) : VMState Dbl :=
  { s with frames := s.frames.dropLast ++ [{ currentFrame s with ip := ip }] }

/-- The function whose chunk the topmost frame executes. -/
def currentFunction {Dbl : Type} (s : VMState Dbl) : FunctionObj Dbl :=
  (s.closureHeap (currentFrame s).closure).fn

/-- READ_BYTE: fetch the byte at `ip` and advance `ip`. -/
def readByte {Dbl : Type} (s : VMState Dbl) : Nat × VMState Dbl :=
  ((currentFunction s).code.getD (currentFrame s).ip 0,
   setFrameIp s ((currentFrame s).ip + 1))

/-- READ_SHORT: advance `ip` by two and decode the two bytes just read as
`(first <<< 8) ||| second` (the first operand byte is the high byte). -/
def readShort {Dbl : Type} (s : VMState Dbl) : Nat × VMState Dbl :=
  let hi := (currentFunction s).code.getD (currentFrame s).ip 0
  let lo := (currentFunction s).code.getD ((currentFrame s).ip + 1) 0
  ((hi <<< 8) ||| lo, setFrameIp s ((currentFrame s).ip + 2))

/-- READ_CONSTANT: READ_BYTE, then index the constant pool with it. -/
def readConstant {Dbl : Type} (s : VMState Dbl) : Value Dbl × VMState Dbl :=
  let r := readByte s
  ((currentFunction s).constants.getD r.1 Value.nil, r.2)

/-- READ_STRING: READ_CONSTANT coerced to a string. -/
def readString {Dbl : Type} (s : VMState Dbl) : String × VMState Dbl :=
  let r := readConstant s
  (asStringV r.1, r.2)

/-- Outcome of executing one instruction handler: continue dispatching,
abort with INTERPRET_RUNTIME_ERROR, or halt with INTERPRET_OK. -/
inductive ExecResult (Dbl : Type) where
  | next (s : VMState Dbl)
  | runtimeErr (s : VMState Dbl)
  | okHalt (s : VMState Dbl)

/-- The state carried by an execution outcome. -/
def ExecResult.state {Dbl : Type} : ExecResult Dbl → VMState Dbl
  | ExecResult.next s => s
  | ExecResult.runtimeErr s => s
  | ExecResult.okHalt s => s

/-- Handler of `instr_op_add`: concatenate when both operands are
strings, add when both are numbers (`dadd` is the host double addition),
else raise a runtime error. -/
def execOpAdd {Dbl : Type} [Inhabited Dbl] (dadd : Dbl → Dbl → Dbl)
    (s : VMState Dbl) : ExecResult Dbl :=
  if isStringV (peek s 0) && isStringV (peek s 1) then
    ExecResult.next (concatenate s)
  else if isNumberV (peek s 0) && isNumberV (peek s 1) then
    let b := asNumber (peek s 0)
    let a := asNumber (peek s 1)
    ExecResult.next
      (push { s with stack := s.stack.dropLast.dropLast } (Value.num (dadd a b)))
  else
    ExecResult.runtimeErr (runtimeError s "Operands must be two numbers or two strings.")

/-- Handler of `instr_op_set_global`: `tableSet` the globals entry to
`peek(0)`; when the set reports the key as new, delete the entry it just
created and raise an undefined-variable error; the value is not popped. -/
def execOpSetGlobal {Dbl : Type} (s : VMState Dbl) : ExecResult Dbl :=
  let r := readString s
  let name := r.1
  let s1 := r.2
  let ts := tableSet s1.globals name (peek s1 0)
  if ts.1 then
    ExecResult.runtimeErr
      (runtimeError { s1 with globals := tableDelete ts.2 name } (undefinedVarMsg name))
  else
    ExecResult.next { s1 with globals := ts.2 }

/-- Handler of `instr_op_get_upvalue`: push the value behind the
upvalue's `location`. -/
def execOpGetUpvalue {Dbl : Type} (s : VMState Dbl) : ExecResult Dbl :=
  let r := readByte s
  let s1 := r.2
  let uv := (s1.closureHeap (currentFrame s1).closure).upvalues.getD r.1 0
  ExecResult.next (push s1 (upvalRead s1 uv))

/-- Handler of `instr_op_set_upvalue`: write `peek(0)` through the
upvalue's `location`; nothing is popped. -/
def execOpSetUpvalue {Dbl : Type} (s : VMState Dbl) : ExecResult Dbl :=
  let r := readByte s
  let s1 := r.2
  let uv := (s1.closureHeap (currentFrame s1).closure).upvalues.getD r.1 0
  ExecResult.next (upvalWrite s1 uv (peek s1 0))

/-- Handler of `instr_op_jump`: `ip += offset`. -/
def execOpJump {Dbl : Type} (s : VMState Dbl) : ExecResult Dbl :=
  let r := readShort s
  ExecResult.next (setFrameIp r.2 ((currentFrame r.2).ip + r.1))

/-- Handler of `instr_op_jump_if_false`: `ip += offset` when `peek(0)` is
falsey; the tested value stays on the stack. -/
def execOpJumpIfFalse {Dbl : Type} (s : VMState Dbl) : ExecResult Dbl :=
  let r := readShort s
  if isFalsey (peek r.2 0) then
    ExecResult.next (setFrameIp r.2 ((currentFrame r.2).ip + r.1))
  else
    ExecResult.next r.2

/-- Handler of `instr_op_loop`: `ip -= offset`. -/
def execOpLoop {Dbl : Type} (s : VMState Dbl) : ExecResult Dbl :=
  let r := readShort s
  ExecResult.next (setFrameIp r.2 ((currentFrame r.2).ip - r.1))

/-- Handler of `instr_op_return`: pop the result, close the upvalues at
or above the frame's base, pop the frame; with no frame left discard the
remaining top value and halt with OK, otherwise reset `stackTop` to the
frame's base, push the result and continue in the caller. -/
def execOpReturn {Dbl : Type} (s : VMState Dbl) : ExecResult Dbl :=
  let f := currentFrame s
  let result := (pop s).1
  let s1 := (pop s).2
  let s2 := closeUpvalues s1 f.slots
  let s3 := { s2 with frames := s2.frames.dropLast }
  if s3.frames.isEmpty then
    ExecResult.okHalt (pop s3).2
  else
    ExecResult.next (push { s3 with stack := s3.stack.take f.slots } result)

/-- Handler of `instr_op_inherit`: error unless `peek(1)` is a class;
otherwise copy all of the superclass's methods into the subclass's table
and pop the subclass, leaving the superclass. -/
def execOpInherit {Dbl : Type} (s : VMState Dbl) : ExecResult Dbl :=
  match peek s 1 with
  | Value.klass superId =>
    let subId := asClassId (peek s 0)
    let subk := s.classHeap subId
    let s1 := { s with
      classHeap := Function.update s.classHeap subId
        { subk with methods := tableAddAll (s.classHeap superId).methods subk.methods } }
    ExecResult.next (pop s1).2
  | _ => ExecResult.runtimeErr (runtimeError s "Superclass must be a class.")

/-- Handler of `instr_op_method`: READ_STRING then `defineMethod`. -/
def execOpMethod {Dbl : Type} (s : VMState Dbl) : ExecResult Dbl :=
  let r := readString s
  ExecResult.next (defineMethod r.2 r.1)

/-- The stack slot an upvalue's `location` points at (junk `0` when the
upvalue is closed; only used under the all-open invariant). -/
def openLocD {Dbl : Type} (heap : Nat → UpvalObj Dbl) (id : Nat) : Nat :=
  match heap id with
  | UpvalObj.openAt l => l
  | UpvalObj.closed _ => 0

/-- Whether an upvalue object is still open. -/
def isOpenUv {Dbl : Type} (heap : Nat → UpvalObj Dbl) (id : Nat) : Bool :=
  match heap id with
  | UpvalObj.openAt _ => true
  | UpvalObj.closed _ => false

/-- The open-upvalue list invariant of the spec: every node is open, the
nodes' stack slots are strictly decreasing along the list (hence no two
nodes share a slot), and every node id has been allocated. -/
def OpenInv {Dbl : Type} (s : VMState Dbl) : Prop :=
  (∀ id ∈ s.openUpvalues, isOpenUv s.upvalHeap id = true) ∧
  (s.openUpvalues.map (openLocD s.upvalHeap)).Chain' (fun a b => b < a) ∧
  (∀ id ∈ s.openUpvalues, id < s.nextUpval)

/-- The effect on a class's method table of a sequence of OP_METHOD
instructions defining `own` (each is a `tableSet`, in order). -/
def foldDefine {Dbl : Type} (own : List (String × Value Dbl)) (base : Table Dbl) :
    Table Dbl :=
  own.foldl (fun t e => (tableSet t e.1 e.2).2) base

/-- Modelled from the claim's words alone, for comparison with the
source's `readShort`: the value a byte pair `b0, b1` (in storage order)
denotes when it is read as a little-endian 16-bit quantity, i.e. the
first stored byte is the low byte. -/
def littleEndianPairDecode (b0 b1 : Nat) : Nat := b0 ||| (b1 <<< 8)

/-- A concrete VM state over `Int` doubles with everything empty, used as
the base of the witness states. -/
def emptyState : VMState Int where
  stack := []
  frames := []
  openUpvalues := []
  upvalHeap := fun _ => default
  nextUpval := 0
  closureHeap := fun _ => default
  classHeap := fun _ => default
  instHeap := fun _ => default
  nextInst := 0
  boundHeap := fun _ => default
  nativeHeap := fun _ _ _ => Value.nil
  globals := ([] : List (String × Value Int))
  errLines := []

/-- A concrete witness state: a one-frame VM whose closure captures one
upvalue, open at stack slot 0, under a two-value stack. -/
def upvalState : VMState Int :=
  { emptyState with
    stack := [Value.num 5, Value.num 7]
    frames := [⟨0, 0, 0⟩]
    closureHeap := fun _ => ⟨default, [0]⟩
    upvalHeap := fun _ => UpvalObj.openAt 0
    nextUpval := 1
    openUpvalues := [0] }

/-- A concrete witness state: a one-frame VM whose function's code is the
byte pair 1, 0 (a 16-bit operand). -/
def jumpState : VMState Int :=
  { emptyState with
    frames := [⟨0, 0, 0⟩]
    closureHeap := fun _ =>
      ⟨{ arity := 0, upvalueCount := 0, code := [1, 0], lines := [1, 1],
         constants := [], name := none }, []⟩ }

/-- A concrete witness state: a one-frame VM whose first constant is the
string "x", an undefined global, and a value on the stack to assign. -/
def globalState : VMState Int :=
  { emptyState with
    stack := [Value.num 9]
    frames := [⟨0, 0, 0⟩]
    closureHeap := fun _ =>
      ⟨{ arity := 0, upvalueCount := 0, code := [0], lines := [1],
         constants := [Value.str "x"], name := none }, []⟩ }

/-- A concrete witness state: a class value on the stack whose class has
an empty method table. -/
def classState : VMState Int :=
  { emptyState with
    stack := [Value.klass 0]
    classHeap := fun _ => ⟨"A", ([] : List (String × Value Int))⟩ }

/-- A concrete witness state: a superclass (id 0, one method "m") below a
subclass (id 1, no methods) on the stack, ready for OP_INHERIT. -/
def inheritState : VMState Int :=
  { emptyState with
    stack := [Value.klass 0, Value.klass 1]
    classHeap := fun id =>
      if id = 0 then ⟨"A", [("m", Value.closure 3)]⟩
      else ⟨"B", ([] : List (String × Value Int))⟩ }

/-- A concrete witness state: two frames (script frame, then a callee
frame based at slot 1), a three-value stack, and one open upvalue at
slot 1, i.e. a captured local of the returning frame. -/
def returnState : VMState Int :=
  { emptyState with
    stack := [Value.num 1, Value.num 2, Value.num 3]
    frames := [⟨0, 0, 0⟩, ⟨1, 5, 1⟩]
    openUpvalues := [0]
    upvalHeap := fun _ => UpvalObj.openAt 1
    nextUpval := 1 }

/-! Plumbing lemmas about the state helpers. -/

theorem stack_setFrameIp {Dbl : Type} (s : VMState Dbl) (ip : Nat) :
    (setFrameIp s ip).stack = s.stack := rfl

theorem globals_setFrameIp {Dbl : Type} (s : VMState Dbl) (ip : Nat) :
    (setFrameIp s ip).globals = s.globals := rfl

theorem upvalHeap_setFrameIp {Dbl : Type} (s : VMState Dbl) (ip : Nat) :
    (setFrameIp s ip).upvalHeap = s.upvalHeap := rfl

theorem closureHeap_setFrameIp {Dbl : Type} (s : VMState Dbl) (ip : Nat) :
    (setFrameIp s ip).closureHeap = s.closureHeap := rfl

theorem peek_setFrameIp {Dbl : Type} (s : VMState Dbl) (ip d : Nat) :
    peek (setFrameIp s ip) d = peek s d := rfl

theorem currentFrame_setFrameIp {Dbl : Type} (s : VMState Dbl) (ip : Nat) :
    currentFrame (setFrameIp s ip) = { currentFrame s with ip := ip } := by
  simp [currentFrame, setFrameIp]

theorem currentFunction_setFrameIp {Dbl : Type} (s : VMState Dbl) (ip : Nat) :
    currentFunction (setFrameIp s ip) = currentFunction s := by
  simp [currentFunction, currentFrame_setFrameIp, closureHeap_setFrameIp]

theorem setFrameIp_setFrameIp {Dbl : Type} (s : VMState Dbl) (ip ip' : Nat) :
    setFrameIp (setFrameIp s ip) ip' = setFrameIp s ip' := by
  simp [setFrameIp, currentFrame_setFrameIp, currentFrame]

/-! Lemmas about the spec-modelled table primitive. -/

theorem tableGet_tableSet_self {Dbl : Type} (t : Table Dbl) (k : String)
    (v : Value Dbl) : tableGet (tableSet t k v).2 k = some v := by
  induction t with
  | nil => simp [tableSet, tableGet]
  | cons e rest ih =>
    by_cases h : e.1 = k
    · simp [tableSet, tableGet, h]
    · simp [tableSet, tableGet, h, ih]

theorem tableGet_tableSet_ne {Dbl : Type} (t : Table Dbl) (k k' : String)
    (v : Value Dbl) (h : k' ≠ k) :
    tableGet (tableSet t k v).2 k' = tableGet t k' := by
  induction t with
  | nil => simp [tableSet, tableGet, Ne.symm h]
  | cons e rest ih =>
    by_cases he : e.1 = k
    · have hek' : ¬e.1 = k' := by rw [he]; exact Ne.symm h
      simp [tableSet, tableGet, he, hek', Ne.symm h]
    · by_cases he' : e.1 = k'
      · simp [tableSet, tableGet, he, he', h]
      · simp [tableSet, tableGet, he, he', ih]

theorem tableSet_isNew_iff {Dbl : Type} (t : Table Dbl) (k : String)
    (v : Value Dbl) : (tableSet t k v).1 = true ↔ tableGet t k = none := by
  induction t with
  | nil => simp [tableSet, tableGet]
  | cons e rest ih =>
    by_cases h : e.1 = k
    · simp [tableSet, tableGet, h]
    · simp [tableSet, tableGet, h, ih]

theorem tableDelete_tableSet_absent {Dbl : Type} (t : Table Dbl) (k : String)
    (v : Value Dbl) (h : tableGet t k = none) :
    tableDelete (tableSet t k v).2 k = t := by
  induction t with
  | nil => simp [tableSet, tableDelete]
  | cons e rest ih =>
    by_cases he : e.1 = k
    · simp [tableGet, he] at h
    · simp [tableGet, he] at h
      simp [tableSet, tableDelete, he, ih h]

/-! List-shape helpers for stacks ending in two known operands. -/

theorem getD_pair_last {α : Type} (rest : List α) (x y d : α) :
    (rest ++ [x, y]).getD (rest.length + 1) d = y := by
  rw [List.getD_append_right _ _ _ _ (by omega)]
  simp

theorem getD_pair_first {α : Type} (rest : List α) (x y d : α) :
    (rest ++ [x, y]).getD rest.length d = x := by
  rw [List.getD_append_right _ _ _ _ (by omega)]
  simp

theorem peek_pair0 {Dbl : Type} (s : VMState Dbl) (rest : List (Value Dbl))
    (x y : Value Dbl) (hs : s.stack = rest ++ [x, y]) : peek s 0 = y := by
  unfold peek
  rw [hs]
  have hl : (rest ++ [x, y]).length - 1 - 0 = rest.length + 1 := by
    simp only [List.length_append, List.length_cons, List.length_nil]
    omega
  rw [hl, getD_pair_last]

theorem peek_pair1 {Dbl : Type} (s : VMState Dbl) (rest : List (Value Dbl))
    (x y : Value Dbl) (hs : s.stack = rest ++ [x, y]) : peek s 1 = x := by
  unfold peek
  rw [hs]
  have hl : (rest ++ [x, y]).length - 1 - 1 = rest.length := by
    simp only [List.length_append, List.length_cons, List.length_nil]
    omega
  rw [hl, getD_pair_first]

theorem dropLast_pair {α : Type} (rest : List α) (x y : α) :
    (rest ++ [x, y]).dropLast = rest ++ [x] := by
  rw [show rest ++ [x, y] = (rest ++ [x]) ++ [y] by simp]
  exact List.dropLast_concat

theorem dropLast_dropLast_pair {α : Type} (rest : List α) (x y : α) :
    (rest ++ [x, y]).dropLast.dropLast = rest := by
  rw [dropLast_pair]
  exact List.dropLast_concat

/-- C3: OP_ADD concatenates when both operands are strings (the result is
a new interned string, i.e. identified by its contents), adds the two
doubles when both operands are numbers, and raises a runtime error
otherwise; in the two success cases exactly the two operands are popped
and the one result value is pushed. -/
theorem opAdd_concat_add_or_error {Dbl : Type} [Inhabited Dbl]
    (dadd : Dbl → Dbl → Dbl) (s : VMState Dbl) (rest : List (Value Dbl)) :
    (∀ a b : String, s.stack = rest ++ [Value.str a, Value.str b] →
      execOpAdd dadd s =
        ExecResult.next { s with stack := rest ++ [Value.str (a ++ b)] }) ∧
    (∀ x y : Dbl, s.stack = rest ++ [Value.num x, Value.num y] →
      execOpAdd dadd s =
        ExecResult.next { s with stack := rest ++ [Value.num (dadd x y)] }) ∧
    ((isStringV (peek s 0) && isStringV (peek s 1)) = false →
      (isNumberV (peek s 0) && isNumberV (peek s 1)) = false →
      execOpAdd dadd s =
        ExecResult.runtimeErr
          (runtimeError s "Operands must be two numbers or two strings.") ∧
      (execOpAdd dadd s).state.stack = [] ∧
      (execOpAdd dadd s).state.frames = []) := by
  refine ⟨?_, ?_, ?_⟩
  · intro a b hs
    have h0 := peek_pair0 s rest _ _ hs
    have h1 := peek_pair1 s rest _ _ hs
    unfold execOpAdd concatenate
    rw [h0, h1]
    simp [isStringV, asStringV, push, hs, dropLast_dropLast_pair]
  · intro x y hs
    have h0 := peek_pair0 s rest _ _ hs
    have h1 := peek_pair1 s rest _ _ hs
    unfold execOpAdd
    rw [h0, h1]
    simp [isStringV, isNumberV, asNumber, push, hs, dropLast_dropLast_pair]
  · intro hstr hnum
    unfold execOpAdd
    rw [hstr, hnum]
    simp [ExecResult.state, runtimeError, resetStack]

/-- Witness for C3: adding the two concrete strings "he" and "llo"
concatenates them into "hello" on the stack. -/
theorem opAdd_concat_add_or_error_witness :
    execOpAdd (fun a b : Int => a + b)
        { emptyState with stack := [Value.str "he", Value.str "llo"] } =
      ExecResult.next
        { { emptyState with stack := [Value.str "he", Value.str "llo"] } with
          stack := [] ++ [Value.str ("he" ++ "llo")] } :=
  (opAdd_concat_add_or_error (fun a b : Int => a + b)
      { emptyState with stack := [Value.str "he", Value.str "llo"] } []).1
    "he" "llo" rfl

/-- An arity-mismatch message is never the stack-overflow message (their
first characters differ). -/
theorem expectedArgsMsg_ne_overflow (n m : Nat) :
    expectedArgsMsg n m ≠ "Stack overflow." := by
  intro h
  have h2 := congrArg (fun t => t.data.head?) h
  simp [expectedArgsMsg] at h2

/-- C6: calling a closure with the wrong number of arguments raises a
runtime error, and every runtime error writes its message followed by the
stack trace innermost frame first (the frame list is outermost-first, so
the trace is its reverse) and then empties the value stack, the frame
stack and the open-upvalue list. -/
theorem call_arity_error_and_reset {Dbl : Type} (s : VMState Dbl)
    (cid argc : Nat) (hne : argc ≠ (s.closureHeap cid).fn.arity) :
    call s cid argc =
      (false, runtimeError s (expectedArgsMsg (s.closureHeap cid).fn.arity argc)) ∧
    (∀ (t : VMState Dbl) (msg : String),
      (runtimeError t msg).stack = [] ∧
      (runtimeError t msg).frames = [] ∧
      (runtimeError t msg).openUpvalues = [] ∧
      (runtimeError t msg).errLines =
        t.errLines ++ [msg] ++ (t.frames.map (frameTraceLine t)).reverse) := by
  constructor
  · simp [call, hne]
  · intro t msg
    simp [runtimeError, resetStack, stackTraceLines]

/-- Witness for C6: calling a zero-arity closure with one argument in a
one-frame state errors and clears the stacks. -/
theorem call_arity_error_and_reset_witness :
    call { emptyState with
           stack := [Value.closure 0, Value.num 1]
           frames := [⟨0, 3, 0⟩] } 0 1 =
      (false, runtimeError { emptyState with
           stack := [Value.closure 0, Value.num 1]
           frames := [⟨0, 3, 0⟩] } (expectedArgsMsg 0 1)) :=
  (call_arity_error_and_reset
      { emptyState with
        stack := [Value.closure 0, Value.num 1]
        frames := [⟨0, 3, 0⟩] } 0 1 (by decide)).1

/-- C9: in `call` the arity check precedes the frame-capacity check, so a
wrong-arity call at full frame depth reports the arity-mismatch message
(which is never the stack-overflow message), while the stack-overflow
error is raised exactly for a correct-arity call at full depth. -/
theorem call_arity_check_precedes_overflow {Dbl : Type} (s : VMState Dbl)
    (cid argc : Nat) (hfull : s.frames.length = FRAMES_MAX)
    (hne : argc ≠ (s.closureHeap cid).fn.arity) :
    call s cid argc =
      (false, runtimeError s (expectedArgsMsg (s.closureHeap cid).fn.arity argc)) ∧
    expectedArgsMsg (s.closureHeap cid).fn.arity argc ≠ "Stack overflow." ∧
    (∀ argc', argc' = (s.closureHeap cid).fn.arity →
      call s cid argc' = (false, runtimeError s "Stack overflow.")) := by
  refine ⟨by simp [call, hne], expectedArgsMsg_ne_overflow _ _, ?_⟩
  intro argc' h
  simp [call, h, hfull]

/-- Witness for C9: a one-argument call of a zero-arity closure with the
frame stack at FRAMES_MAX reports the arity mismatch. -/
theorem call_arity_check_precedes_overflow_witness :
    call { emptyState with frames := List.replicate 64 ⟨0, 0, 0⟩ } 0 1 =
      (false, runtimeError { emptyState with frames := List.replicate 64 ⟨0, 0, 0⟩ }
        (expectedArgsMsg 0 1)) :=
  (call_arity_check_precedes_overflow
      { emptyState with frames := List.replicate 64 ⟨0, 0, 0⟩ } 0 1
      (by simp [FRAMES_MAX]) (by decide)).1

/-- Writing the current top-of-stack value into any slot leaves the last
element unchanged (writing it into the last slot rewrites it with
itself). -/
theorem getLastD_set_top {α : Type} (l : List α) (i : Nat) (d : α) :
    (l.set i (l.getD (l.length - 1) d)).getLastD d = l.getLastD d := by
  by_cases hl : l.length = 0
  · rw [List.length_eq_zero] at hl
    subst hl
    rfl
  · by_cases hi : i < l.length
    · rw [List.getLastD_eq_getLast?, List.getLast?_eq_getElem?, List.length_set,
        List.getLastD_eq_getLast?, List.getLast?_eq_getElem?]
      by_cases he : i = l.length - 1
      · subst he
        rw [List.getElem?_set_self hi]
        rw [List.getD_eq_getElem?_getD]
        cases h : l[l.length - 1]? with
        | none =>
          rw [List.getElem?_eq_none_iff] at h
          omega
        | some v => simp
      · rw [List.getElem?_set_ne he]
    · rw [List.set_eq_of_length_le (by omega)]

/-- C10: OP_GET_UPVALUE pushes exactly one value, the current target of
the upvalue's `location`; OP_SET_UPVALUE writes `peek(0)` through the
upvalue's `location` without popping: the stack keeps its length and its
top value (the assigned value stays as the expression result), the write
landing in the pointed-to stack slot while the upvalue is open and in its
owned `closed` field once closed. -/
theorem upvalueOps_stack_effect {Dbl : Type} (s : VMState Dbl) :
    (execOpGetUpvalue s).state.stack =
      s.stack ++
        [upvalRead s
          ((s.closureHeap (currentFrame s).closure).upvalues.getD (readByte s).1 0)] ∧
    (∃ t, execOpGetUpvalue s = ExecResult.next t) ∧
    (execOpSetUpvalue s).state.stack.length = s.stack.length ∧
    (s.stack ≠ [] →
      (execOpSetUpvalue s).state.stack.getLastD Value.nil =
        s.stack.getLastD Value.nil) ∧
    (∀ l,
      s.upvalHeap
          ((s.closureHeap (currentFrame s).closure).upvalues.getD (readByte s).1 0) =
        UpvalObj.openAt l →
      (execOpSetUpvalue s).state.stack = s.stack.set l (peek s 0) ∧
      (execOpSetUpvalue s).state.upvalHeap = s.upvalHeap) ∧
    (∀ v,
      s.upvalHeap
          ((s.closureHeap (currentFrame s).closure).upvalues.getD (readByte s).1 0) =
        UpvalObj.closed v →
      (execOpSetUpvalue s).state.stack = s.stack ∧
      (execOpSetUpvalue s).state.upvalHeap
          ((s.closureHeap (currentFrame s).closure).upvalues.getD (readByte s).1 0) =
        UpvalObj.closed (peek s 0)) := by
  have huv :
      ((readByte s).2.closureHeap (currentFrame (readByte s).2).closure).upvalues.getD
          (readByte s).1 0 =
        (s.closureHeap (currentFrame s).closure).upvalues.getD (readByte s).1 0 := by
    show ((setFrameIp s _).closureHeap (currentFrame (setFrameIp s _)).closure).upvalues.getD
        (readByte s).1 0 = _
    rw [currentFrame_setFrameIp, closureHeap_setFrameIp]
  refine ⟨?_, ?_, ?_, ?_, ?_, ?_⟩
  · show (push (readByte s).2 _).stack = _
    rw [push]
    show s.stack ++ _ = _
    rw [huv]
    rfl
  · exact ⟨_, rfl⟩
  · show (upvalWrite (readByte s).2 _ _).stack.length = _
    rw [huv]
    unfold upvalWrite
    cases h : (readByte s).2.upvalHeap
        ((s.closureHeap (currentFrame s).closure).upvalues.getD (readByte s).1 0) with
    | openAt l => exact List.length_set _ _ _
    | closed v => rfl
  · intro hne
    show (upvalWrite (readByte s).2 _ _).stack.getLastD Value.nil = _
    rw [huv]
    unfold upvalWrite
    cases h : (readByte s).2.upvalHeap
        ((s.closureHeap (currentFrame s).closure).upvalues.getD (readByte s).1 0) with
    | openAt l =>
      show (s.stack.set l (peek s 0)).getLastD Value.nil = _
      have := getLastD_set_top s.stack l Value.nil
      simpa [peek] using this
    | closed v => rfl
  · intro l hl
    constructor
    · show (upvalWrite (readByte s).2 _ _).stack = _
      rw [huv]
      unfold upvalWrite
      rw [show (readByte s).2.upvalHeap = s.upvalHeap from rfl, hl]
      rfl
    · show (upvalWrite (readByte s).2 _ _).upvalHeap = _
      rw [huv]
      unfold upvalWrite
      rw [show (readByte s).2.upvalHeap = s.upvalHeap from rfl, hl]
  · intro v hv
    constructor
    · show (upvalWrite (readByte s).2 _ _).stack = _
      rw [huv]
      unfold upvalWrite
      rw [show (readByte s).2.upvalHeap = s.upvalHeap from rfl, hv]
      rfl
    · show (upvalWrite (readByte s).2 _ _).upvalHeap _ = _
      rw [huv]
      unfold upvalWrite
      rw [show (readByte s).2.upvalHeap = s.upvalHeap from rfl, hv]
      exact Function.update_same _ _ _

/-- Witness for C10: in a concrete state whose captured upvalue is open
at slot 0, OP_SET_UPVALUE writes the stack top through the location into
slot 0 and leaves the upvalue heap alone. -/
theorem upvalueOps_stack_effect_witness :
    (execOpSetUpvalue upvalState).state.stack =
      upvalState.stack.set 0 (peek upvalState 0) ∧
    (execOpSetUpvalue upvalState).state.upvalHeap = upvalState.upvalHeap :=
  (upvalueOps_stack_effect upvalState).2.2.2.2.1 0 rfl

/-- Decoding a big-endian byte pair: the source's `hi <<< 8 ||| lo` is
`hi * 256 + lo` whenever the low byte is in range. -/
theorem shiftLeft8_lor_eq (b0 b1 : Nat) (h : b1 < 256) :
    (b0 <<< 8) ||| b1 = b0 * 256 + b1 := by
  rw [Nat.shiftLeft_eq]
  have h2 : b1 < 2 ^ 8 := by norm_num; omega
  have h3 := Nat.mul_add_lt_is_or (i := 8) h2 b0
  rw [show b0 * 2 ^ 8 = 2 ^ 8 * b0 from Nat.mul_comm _ _, ← h3]
  norm_num
  omega

/-- Counterexample for C8: the byte pair 1, 0 decodes to 256 through the
source's `READ_SHORT`, while reading the pair as a little-endian 16-bit
value would give 1 — the offset bytes are stored big-endian (first byte
is the high byte), not little-endian. -/
theorem readShort_not_littleEndian :
    (readShort jumpState).1 = 256 ∧
    littleEndianPairDecode 1 0 = 1 ∧
    (readShort jumpState).1 ≠ littleEndianPairDecode 1 0 := by
  refine ⟨by decide, by decide, by decide⟩

/-- C8 (amended): jump offsets are 16-bit values stored as big-endian
byte pairs (the first operand byte is the high byte), decoded as
`hi <<< 8 ||| lo`, which equals `hi * 256 + lo`; OP_JUMP adds the offset
to `ip`, OP_LOOP subtracts it, and OP_JUMP_IF_FALSE adds it exactly when
the top of stack is falsey while never popping that value. -/
theorem jumps_bigendian_spec {Dbl : Type} (s : VMState Dbl) (b0 b1 : Nat)
    (hc0 : (currentFunction s).code.getD (currentFrame s).ip 0 = b0)
    (hc1 : (currentFunction s).code.getD ((currentFrame s).ip + 1) 0 = b1)
    (hb1 : b1 < 256) :
    (readShort s).1 = (b0 <<< 8) ||| b1 ∧
    (readShort s).1 = b0 * 256 + b1 ∧
    (b0 < 256 → (readShort s).1 < 65536) ∧
    execOpJump s =
      ExecResult.next
        (setFrameIp s ((currentFrame s).ip + 2 + ((b0 <<< 8) ||| b1))) ∧
    execOpLoop s =
      ExecResult.next
        (setFrameIp s ((currentFrame s).ip + 2 - ((b0 <<< 8) ||| b1))) ∧
    (isFalsey (peek s 0) = true →
      execOpJumpIfFalse s =
        ExecResult.next
          (setFrameIp s ((currentFrame s).ip + 2 + ((b0 <<< 8) ||| b1)))) ∧
    (isFalsey (peek s 0) = false →
      execOpJumpIfFalse s =
        ExecResult.next (setFrameIp s ((currentFrame s).ip + 2))) ∧
    (execOpJumpIfFalse s).state.stack = s.stack := by
  have h1 : (readShort s).1 = (b0 <<< 8) ||| b1 := by
    unfold readShort
    rw [hc0, hc1]
  have heq := shiftLeft8_lor_eq b0 b1 hb1
  have h2 : (readShort s).2 = setFrameIp s ((currentFrame s).ip + 2) := rfl
  refine ⟨h1, by rw [h1, heq], by intro hb0; rw [h1, heq]; omega, ?_, ?_, ?_, ?_, ?_⟩
  · show ExecResult.next
        (setFrameIp (readShort s).2 ((currentFrame (readShort s).2).ip + (readShort s).1)) = _
    rw [h1, h2, currentFrame_setFrameIp, setFrameIp_setFrameIp]
  · show ExecResult.next
        (setFrameIp (readShort s).2 ((currentFrame (readShort s).2).ip - (readShort s).1)) = _
    rw [h1, h2, currentFrame_setFrameIp, setFrameIp_setFrameIp]
  · intro hf
    have hf' : isFalsey (peek (readShort s).2 0) = true := hf
    have h4 : execOpJumpIfFalse s =
        ExecResult.next
          (setFrameIp (readShort s).2 ((currentFrame (readShort s).2).ip + (readShort s).1)) := by
      simp [execOpJumpIfFalse, hf']
    rw [h4, h1, h2, currentFrame_setFrameIp, setFrameIp_setFrameIp]
  · intro hf
    have hf' : isFalsey (peek (readShort s).2 0) = false := hf
    have h4 : execOpJumpIfFalse s = ExecResult.next (readShort s).2 := by
      simp [execOpJumpIfFalse, hf']
    rw [h4, h2]
  · cases hf : isFalsey (peek (readShort s).2 0) with
    | false =>
      have h4 : execOpJumpIfFalse s = ExecResult.next (readShort s).2 := by
        simp [execOpJumpIfFalse, hf]
      rw [h4]
      rfl
    | true =>
      have h4 : execOpJumpIfFalse s =
          ExecResult.next
            (setFrameIp (readShort s).2 ((currentFrame (readShort s).2).ip + (readShort s).1)) := by
        simp [execOpJumpIfFalse, hf]
      rw [h4]
      rfl

/-- Witness for C8's amended claim, at the concrete byte pair 1, 0. -/
theorem jumps_bigendian_spec_witness :
    (readShort jumpState).1 = (1 <<< 8) ||| 0 ∧
    (readShort jumpState).1 = 1 * 256 + 0 ∧
    (1 < 256 → (readShort jumpState).1 < 65536) ∧
    execOpJump jumpState =
      ExecResult.next
        (setFrameIp jumpState ((currentFrame jumpState).ip + 2 + ((1 <<< 8) ||| 0))) ∧
    execOpLoop jumpState =
      ExecResult.next
        (setFrameIp jumpState ((currentFrame jumpState).ip + 2 - ((1 <<< 8) ||| 0))) ∧
    (isFalsey (peek jumpState 0) = true →
      execOpJumpIfFalse jumpState =
        ExecResult.next
          (setFrameIp jumpState ((currentFrame jumpState).ip + 2 + ((1 <<< 8) ||| 0)))) ∧
    (isFalsey (peek jumpState 0) = false →
      execOpJumpIfFalse jumpState =
        ExecResult.next (setFrameIp jumpState ((currentFrame jumpState).ip + 2))) ∧
    (execOpJumpIfFalse jumpState).state.stack = jumpState.stack :=
  jumps_bigendian_spec jumpState 1 0 rfl rfl (by decide)

/-- C4: OP_SET_GLOBAL on a name not present in the globals table deletes
the entry the failed `tableSet` just created and raises the
undefined-variable runtime error, leaving the globals table exactly as it
was (no sentinel entry remains); on a present name the entry is updated
to `peek(0)` and the value stays on the stack. -/
theorem opSetGlobal_spec {Dbl : Type} (s : VMState Dbl) :
    (tableGet s.globals (readString s).1 = none →
      execOpSetGlobal s =
        ExecResult.runtimeErr
          (runtimeError
            { (readString s).2 with
              globals :=
                tableDelete (tableSet s.globals (readString s).1 (peek s 0)).2
                  (readString s).1 }
            (undefinedVarMsg (readString s).1)) ∧
      (execOpSetGlobal s).state.globals = s.globals ∧
      (execOpSetGlobal s).state.errLines =
        s.errLines ++ [undefinedVarMsg (readString s).1] ++
          stackTraceLines (readString s).2 ∧
      (execOpSetGlobal s).state.stack = [] ∧
      (execOpSetGlobal s).state.frames = []) ∧
    (∀ w, tableGet s.globals (readString s).1 = some w →
      execOpSetGlobal s =
        ExecResult.next
          { (readString s).2 with
            globals := (tableSet s.globals (readString s).1 (peek s 0)).2 } ∧
      tableGet (execOpSetGlobal s).state.globals (readString s).1 =
        some (peek s 0) ∧
      (execOpSetGlobal s).state.stack = s.stack) := by
  constructor
  · intro habs
    have hnew :
        (tableSet (readString s).2.globals (readString s).1
          (peek (readString s).2 0)).1 = true := by
      rw [show (readString s).2.globals = s.globals from rfl,
        show peek (readString s).2 0 = peek s 0 from rfl]
      exact (tableSet_isNew_iff _ _ _).mpr habs
    have hrun : execOpSetGlobal s =
        ExecResult.runtimeErr
          (runtimeError
            { (readString s).2 with
              globals :=
                tableDelete (tableSet s.globals (readString s).1 (peek s 0)).2
                  (readString s).1 }
            (undefinedVarMsg (readString s).1)) := by
      simp only [execOpSetGlobal, hnew, if_true]
      rfl
    refine ⟨hrun, ?_, ?_, ?_, ?_⟩
    · rw [hrun]
      show tableDelete (tableSet s.globals (readString s).1 (peek s 0)).2
          (readString s).1 = s.globals
      exact tableDelete_tableSet_absent _ _ _ habs
    · rw [hrun]
      rfl
    · rw [hrun]
      rfl
    · rw [hrun]
      rfl
  · intro w hpres
    have hnew :
        (tableSet (readString s).2.globals (readString s).1
          (peek (readString s).2 0)).1 = false := by
      have h1 :
          ¬(tableSet (readString s).2.globals (readString s).1
            (peek (readString s).2 0)).1 = true := by
        rw [tableSet_isNew_iff, show (readString s).2.globals = s.globals from rfl,
          hpres]
        intro hh
        exact Option.noConfusion hh
      exact Bool.not_eq_true _ ▸ h1
    have hrun : execOpSetGlobal s =
        ExecResult.next
          { (readString s).2 with
            globals := (tableSet s.globals (readString s).1 (peek s 0)).2 } := by
      simp only [execOpSetGlobal, hnew, Bool.false_eq_true, if_false]
      rfl
    refine ⟨hrun, ?_, ?_⟩
    · rw [hrun]
      show tableGet (tableSet s.globals (readString s).1 (peek s 0)).2
          (readString s).1 = some (peek s 0)
      exact tableGet_tableSet_self _ _ _
    · rw [hrun]
      rfl

/-- Witness for C4: assigning the undefined global "x" in a concrete
state errors and leaves the (empty) globals table unchanged. -/
theorem opSetGlobal_spec_witness :
    execOpSetGlobal globalState =
      ExecResult.runtimeErr
        (runtimeError
          { (readString globalState).2 with
            globals :=
              tableDelete
                (tableSet globalState.globals (readString globalState).1
                  (peek globalState 0)).2
                (readString globalState).1 }
          (undefinedVarMsg (readString globalState).1)) ∧
    (execOpSetGlobal globalState).state.globals = globalState.globals ∧
    (execOpSetGlobal globalState).state.errLines =
      globalState.errLines ++ [undefinedVarMsg (readString globalState).1] ++
        stackTraceLines (readString globalState).2 ∧
    (execOpSetGlobal globalState).state.stack = [] ∧
    (execOpSetGlobal globalState).state.frames = [] :=
  (opSetGlobal_spec globalState).1 rfl

/-- C5: calling a Class value with `argc` arguments allocates a fresh
Instance of that class and overwrites the callee's stack slot
(`stack_top[-argc-1]`) with it; when the class's method table has an
"init" entry that closure is invoked with the same `argc`; otherwise the
call succeeds exactly when `argc = 0` and errors for nonzero `argc`. -/
theorem callValue_class_spec {Dbl : Type} (s : VMState Dbl) (kid argc : Nat)
    (hlen : argc + 1 ≤ s.stack.length) :
    let s2 := setStackAt
      { s with
        instHeap := Function.update s.instHeap s.nextInst
          ⟨kid, ([] : List (String × Value Dbl))⟩
        nextInst := s.nextInst + 1 }
      (s.stack.length - (argc + 1)) (Value.inst s.nextInst)
    s2.instHeap s.nextInst = ⟨kid, ([] : List (String × Value Dbl))⟩ ∧
    s2.nextInst = s.nextInst + 1 ∧
    s2.stack.getD (s.stack.length - (argc + 1)) Value.nil =
      Value.inst s.nextInst ∧
    (∀ ini, tableGet (s.classHeap kid).methods "init" = some ini →
      callValue s (Value.klass kid) argc = call s2 (asClosureId ini) argc) ∧
    (tableGet (s.classHeap kid).methods "init" = none →
      (argc = 0 → callValue s (Value.klass kid) argc = (true, s2)) ∧
      (argc ≠ 0 →
        callValue s (Value.klass kid) argc =
          (false, runtimeError s2 (expectedArgsMsg 0 argc)))) := by
  intro s2
  have hproj : s2.instHeap =
      Function.update s.instHeap s.nextInst
        ⟨kid, ([] : List (String × Value Dbl))⟩ := rfl
  refine ⟨?_, rfl, ?_, ?_, ?_⟩
  · rw [hproj]
    exact Function.update_same _ _ _
  · have hidx : s.stack.length - (argc + 1) < s.stack.length := by omega
    show (s.stack.set (s.stack.length - (argc + 1)) (Value.inst s.nextInst)).getD
        (s.stack.length - (argc + 1)) Value.nil = Value.inst s.nextInst
    rw [List.getD_eq_getElem?_getD, List.getElem?_set_self hidx]
    rfl
  · intro ini hini
    have hini' : tableGet (s2.classHeap kid).methods "init" = some ini := hini
    show (match tableGet (s2.classHeap kid).methods "init" with
      | some ini => call s2 (asClosureId ini) argc
      | none =>
        if argc ≠ 0 then (false, runtimeError s2 (expectedArgsMsg 0 argc))
        else (true, s2)) = call s2 (asClosureId ini) argc
    rw [hini']
  · intro hnone
    have hnone' : tableGet (s2.classHeap kid).methods "init" = none := hnone
    constructor
    · intro h0
      show (match tableGet (s2.classHeap kid).methods "init" with
        | some ini => call s2 (asClosureId ini) argc
        | none =>
          if argc ≠ 0 then (false, runtimeError s2 (expectedArgsMsg 0 argc))
          else (true, s2)) = (true, s2)
      rw [hnone']
      simp [h0]
    · intro h0
      show (match tableGet (s2.classHeap kid).methods "init" with
        | some ini => call s2 (asClosureId ini) argc
        | none =>
          if argc ≠ 0 then (false, runtimeError s2 (expectedArgsMsg 0 argc))
          else (true, s2)) = (false, runtimeError s2 (expectedArgsMsg 0 argc))
      rw [hnone']
      simp [h0]

/-- Witness for C5: calling a class with an empty method table and zero
arguments replaces the class on the stack with a fresh instance and
succeeds. -/
theorem callValue_class_spec_witness :
    callValue classState (Value.klass 0) 0 =
      (true,
        setStackAt
          { classState with
            instHeap := Function.update classState.instHeap classState.nextInst
              ⟨0, ([] : List (String × Value Int))⟩
            nextInst := classState.nextInst + 1 }
          (classState.stack.length - (0 + 1)) (Value.inst classState.nextInst)) :=
  ((callValue_class_spec classState 0 0 (by decide)).2.2.2.2 rfl).1 rfl

/-- A key absent from a table is exactly one outside its key list. -/
theorem tableGet_eq_none_iff {Dbl : Type} (t : Table Dbl) (k : String) :
    tableGet t k = none ↔ k ∉ t.map Prod.fst := by
  induction t with
  | nil => simp [tableGet]
  | cons e rest ih =>
    by_cases he : e.1 = k
    · simp [tableGet, he]
    · simp [tableGet, he, ih, Ne.symm he]

/-- `tableAddAll` leaves a key the source lacks looking into the
destination. -/
theorem tableAddAll_miss {Dbl : Type} (src : Table Dbl) :
    ∀ (dst : Table Dbl) (k : String), tableGet src k = none →
      tableGet (tableAddAll src dst) k = tableGet dst k := by
  induction src with
  | nil => intro dst k _; rfl
  | cons e rest ih =>
    intro dst k h
    have he : ¬e.1 = k := by
      intro he
      rw [tableGet, if_pos he] at h
      exact Option.noConfusion h
    have h' : tableGet rest k = none := by
      rw [tableGet, if_neg he] at h
      exact h
    show tableGet (tableAddAll rest (tableSet dst e.1 e.2).2) k = tableGet dst k
    rw [ih _ k h']
    exact tableGet_tableSet_ne _ _ _ _ (fun hk => he hk.symm)

/-- `tableAddAll` transfers a present entry of the source (unique keys)
into the result. -/
theorem tableAddAll_hit {Dbl : Type} (src : Table Dbl) (k : String)
    (v : Value Dbl) :
    ∀ dst : Table Dbl, (src.map Prod.fst).Nodup → tableGet src k = some v →
      tableGet (tableAddAll src dst) k = some v := by
  induction src with
  | nil => intro dst _ h; exact Option.noConfusion h
  | cons e rest ih =>
    intro dst hnd h
    rw [List.map_cons, List.nodup_cons] at hnd
    show tableGet (tableAddAll rest (tableSet dst e.1 e.2).2) k = some v
    by_cases he : e.1 = k
    · have hv : v = e.2 := by
        rw [tableGet, if_pos he] at h
        exact (Option.some.inj h).symm
      have habs : tableGet rest k = none := by
        rw [tableGet_eq_none_iff]
        rw [he] at hnd
        exact hnd.1
      rw [tableAddAll_miss rest _ k habs, he, hv]
      exact tableGet_tableSet_self _ _ _
    · have h' : tableGet rest k = some v := by
        rw [tableGet, if_neg he] at h
        exact h
      exact ih _ hnd.2 h'
/-- Looking a key up after a sequence of method definitions over any base
table: the definitions' own result wins, else the base answers. -/
theorem tableGet_foldDefine {Dbl : Type} (own : List (String × Value Dbl))
    (k : String) :
    ∀ base : Table Dbl,
      tableGet (foldDefine own base) k =
        (match tableGet (foldDefine own ([] : Table Dbl)) k with
         | some v => some v
         | none => tableGet base k) := by
  induction own with
  | nil => intro base; rfl
  | cons e rest ih =>
    intro base
    show tableGet (foldDefine rest (tableSet base e.1 e.2).2) k = _
    rw [ih]
    rw [show foldDefine (e :: rest) ([] : Table Dbl)
        = foldDefine rest (tableSet ([] : Table Dbl) e.1 e.2).2 from rfl]
    rw [ih ((tableSet ([] : Table Dbl) e.1 e.2).2)]
    cases hA : tableGet (foldDefine rest ([] : Table Dbl)) k with
    | some v => rfl
    | none =>
      by_cases hk : e.1 = k
      · subst hk
        rw [tableGet_tableSet_self, tableGet_tableSet_self]
      · rw [tableGet_tableSet_ne _ _ _ _ (Ne.symm hk),
          tableGet_tableSet_ne _ _ _ _ (Ne.symm hk)]
        rfl

/-- C7: OP_INHERIT errors when the superclass value is not a Class;
otherwise it copies every entry of the superclass's method table into the
subclass's table and pops the subclass, leaving the superclass on the
stack and its own table untouched; the subsequent OP_METHOD definitions
(each a `tableSet` on the subclass only) make the subclass's final table
the union of inherited and own methods with the own definitions
overriding on name collision. -/
theorem opInherit_spec {Dbl : Type} (s : VMState Dbl) :
    (∀ rest superId subId,
      s.stack = rest ++ [Value.klass superId, Value.klass subId] →
      subId ≠ superId →
      execOpInherit s =
        ExecResult.next
          { s with
            classHeap := Function.update s.classHeap subId
              { s.classHeap subId with
                methods := tableAddAll (s.classHeap superId).methods
                  (s.classHeap subId).methods }
            stack := rest ++ [Value.klass superId] } ∧
      (execOpInherit s).state.classHeap subId =
        { s.classHeap subId with
          methods := tableAddAll (s.classHeap superId).methods
            (s.classHeap subId).methods } ∧
      (execOpInherit s).state.classHeap superId = s.classHeap superId ∧
      (execOpInherit s).state.stack = rest ++ [Value.klass superId]) ∧
    ((∀ kid, peek s 1 ≠ Value.klass kid) →
      execOpInherit s =
        ExecResult.runtimeErr (runtimeError s "Superclass must be a class.")) ∧
    (∀ name j, j ≠ asClassId (peek s 1) →
      (defineMethod s name).classHeap j = s.classHeap j) ∧
    (∀ name,
      (defineMethod s name).classHeap (asClassId (peek s 1)) =
        { s.classHeap (asClassId (peek s 1)) with
          methods :=
            (tableSet (s.classHeap (asClassId (peek s 1))).methods name
              (peek s 0)).2 } ∧
      (defineMethod s name).stack = s.stack.dropLast) ∧
    (∀ (S : Table Dbl) (own : List (String × Value Dbl)) (k : String)
        (v : Value Dbl),
      (S.map Prod.fst).Nodup →
      (tableGet (foldDefine own ([] : Table Dbl)) k = some v →
        tableGet (foldDefine own (tableAddAll S ([] : Table Dbl))) k = some v) ∧
      (tableGet (foldDefine own ([] : Table Dbl)) k = none →
        tableGet (foldDefine own (tableAddAll S ([] : Table Dbl))) k =
          tableGet S k)) := by
  refine ⟨?_, ?_, ?_, ?_, ?_⟩
  · intro rest superId subId hs hne
    have h1 : peek s 1 = Value.klass superId := peek_pair1 s rest _ _ hs
    have h0 : peek s 0 = Value.klass subId := peek_pair0 s rest _ _ hs
    have hrun : execOpInherit s =
        ExecResult.next
          { s with
            classHeap := Function.update s.classHeap subId
              { s.classHeap subId with
                methods := tableAddAll (s.classHeap superId).methods
                  (s.classHeap subId).methods }
            stack := rest ++ [Value.klass superId] } := by
      unfold execOpInherit
      rw [h1]
      show ExecResult.next (pop _).2 = _
      rw [h0]
      simp [pop, asClassId, hs, dropLast_pair]
    refine ⟨hrun, ?_, ?_, ?_⟩
    · rw [hrun]
      exact Function.update_same _ _ _
    · rw [hrun]
      exact Function.update_noteq (Ne.symm hne) _ _
    · rw [hrun]
      rfl
  · intro hnk
    cases hpk : peek s 1 with
    | klass kid => exact absurd hpk (hnk kid)
    | nil => unfold execOpInherit; rw [hpk]
    | bool b => unfold execOpInherit; rw [hpk]
    | num d => unfold execOpInherit; rw [hpk]
    | str t => unfold execOpInherit; rw [hpk]
    | closure id => unfold execOpInherit; rw [hpk]
    | inst id => unfold execOpInherit; rw [hpk]
    | bound id => unfold execOpInherit; rw [hpk]
    | native id => unfold execOpInherit; rw [hpk]
    | func id => unfold execOpInherit; rw [hpk]
  · intro name j hj
    show (pop _).2.classHeap j = _
    exact Function.update_noteq hj _ _
  · intro name
    exact ⟨Function.update_same _ _ _, rfl⟩
  · intro S own k v hnd
    constructor
    · intro hsome
      rw [tableGet_foldDefine, hsome]
    · intro hnone
      rw [tableGet_foldDefine, hnone]
      show tableGet (tableAddAll S ([] : Table Dbl)) k = tableGet S k
      cases hS : tableGet S k with
      | some w => exact tableAddAll_hit S k w _ hnd hS
      | none => rw [tableAddAll_miss S _ k hS]; rfl

/-- Witness for C7: inheriting from a one-method superclass copies the
method into the empty subclass and pops the subclass from the stack. -/
theorem opInherit_spec_witness :
    execOpInherit inheritState =
      ExecResult.next
        { inheritState with
          classHeap := Function.update inheritState.classHeap 1
            { inheritState.classHeap 1 with
              methods := tableAddAll (inheritState.classHeap 0).methods
                (inheritState.classHeap 1).methods }
          stack := [] ++ [Value.klass 0] } ∧
    (execOpInherit inheritState).state.classHeap 1 =
      { inheritState.classHeap 1 with
        methods := tableAddAll (inheritState.classHeap 0).methods
          (inheritState.classHeap 1).methods } ∧
    (execOpInherit inheritState).state.classHeap 0 = inheritState.classHeap 0 ∧
    (execOpInherit inheritState).state.stack = [] ++ [Value.klass 0] :=
  (opInherit_spec inheritState).1 [] 0 1 rfl (by decide)

instance : IsTrans Nat (fun a b => b < a) :=
  ⟨fun _ _ _ h1 h2 => Nat.lt_trans h2 h1⟩

/-- Strictly-decreasing chains and pairwise decrease coincide. -/
theorem chain'_gt_iff_pairwise (l : List Nat) :
    l.Chain' (fun a b : Nat => b < a) ↔ l.Pairwise (fun a b : Nat => b < a) :=
  List.chain'_iff_pairwise

theorem isOpenUv_update_ne {Dbl : Type} (heap : Nat → UpvalObj Dbl)
    (i j : Nat) (x : UpvalObj Dbl) (h : j ≠ i) :
    isOpenUv (Function.update heap i x) j = isOpenUv heap j := by
  unfold isOpenUv
  rw [Function.update_noteq h]

theorem openLocD_update_ne {Dbl : Type} (heap : Nat → UpvalObj Dbl)
    (i j : Nat) (x : UpvalObj Dbl) (h : j ≠ i) :
    openLocD (Function.update heap i x) j = openLocD heap j := by
  unfold openLocD
  rw [Function.update_noteq h]

theorem openLocD_of_openAt {Dbl : Type} (heap : Nat → UpvalObj Dbl)
    (id l : Nat) (h : heap id = UpvalObj.openAt l) : openLocD heap id = l := by
  unfold openLocD
  rw [h]

/-- An open node in the list yields an `openAt` heap entry. -/
theorem exists_openAt_of_isOpen {Dbl : Type} (heap : Nat → UpvalObj Dbl)
    (id : Nat) (h : isOpenUv heap id = true) :
    heap id = UpvalObj.openAt (openLocD heap id) := by
  unfold isOpenUv at h
  unfold openLocD
  cases hh : heap id with
  | openAt l => rfl
  | closed v => rw [hh] at h; exact Bool.noConfusion h

/-- The walk of `captureUpvalue` when some node already holds the wanted
slot: it returns that node, leaves the list alone and allocates
nothing. -/
theorem captureIds_found {Dbl : Type} (heap : Nat → UpvalObj Dbl)
    (newId slotPtr : Nat) :
    ∀ l : List Nat,
      (∀ id ∈ l, isOpenUv heap id = true) →
      (l.map (openLocD heap)).Pairwise (fun a b => b < a) →
      ∀ id0 ∈ l, heap id0 = UpvalObj.openAt slotPtr →
        captureIds heap newId slotPtr l = (id0, l, false) := by
  intro l
  induction l with
  | nil =>
    intro _ _ id0 h
    exact absurd h (List.not_mem_nil id0)
  | cons id rest ih =>
    intro hopen hpw id0 hid0 hloc
    rw [List.map_cons, List.pairwise_cons] at hpw
    rcases List.mem_cons.mp hid0 with h | h
    · subst h
      simp only [captureIds]
      rw [hloc]
      simp [lt_irrefl]
    · have hlt : openLocD heap id0 < openLocD heap id :=
        hpw.1 _ (List.mem_map_of_mem _ h)
      have hl0 : openLocD heap id0 = slotPtr := openLocD_of_openAt _ _ _ hloc
      have hlh : heap id = UpvalObj.openAt (openLocD heap id) :=
        exists_openAt_of_isOpen heap id (hopen id (List.mem_cons_self id rest))
      rw [hl0] at hlt
      have hrec := ih (fun i hi => hopen i (List.mem_cons_of_mem id hi)) hpw.2
        id0 h hloc
      simp only [captureIds]
      rw [hlh]
      simp [hlt, hrec]

/-- The walk of `captureUpvalue` when no node holds the wanted slot: it
reports a fresh allocation and splices the new id in at the point where
the locations stop exceeding the slot. -/
theorem captureIds_notFound {Dbl : Type} (heap : Nat → UpvalObj Dbl)
    (newId slotPtr : Nat) :
    ∀ l : List Nat,
      (∀ id ∈ l, isOpenUv heap id = true) →
      (∀ id ∈ l, heap id ≠ UpvalObj.openAt slotPtr) →
        captureIds heap newId slotPtr l =
          (newId,
           l.takeWhile (fun id => decide (slotPtr < openLocD heap id)) ++
             newId ::
               l.dropWhile (fun id => decide (slotPtr < openLocD heap id)),
           true) := by
  intro l
  induction l with
  | nil =>
    intro _ _
    rfl
  | cons id rest ih =>
    intro hopen hnone
    have hlh : heap id = UpvalObj.openAt (openLocD heap id) :=
      exists_openAt_of_isOpen heap id (hopen id (List.mem_cons_self id rest))
    by_cases hgt : slotPtr < openLocD heap id
    · have hrec := ih (fun i hi => hopen i (List.mem_cons_of_mem id hi))
        (fun i hi => hnone i (List.mem_cons_of_mem id hi))
      simp only [captureIds]
      rw [hlh]
      simp [List.takeWhile_cons, List.dropWhile_cons, hgt, hrec]
    · have hne : openLocD heap id ≠ slotPtr := by
        intro he
        exact hnone id (List.mem_cons_self id rest) (he ▸ hlh)
      simp only [captureIds]
      rw [hlh]
      simp [List.takeWhile_cons, List.dropWhile_cons, hgt, hne]

/-- Past the walked prefix, every node's slot is strictly below the
captured slot (its head fails the walk test and is not the slot itself;
the rest decrease). -/
theorem dropWhile_locs_lt {Dbl : Type} (heap : Nat → UpvalObj Dbl)
    (slotPtr : Nat) :
    ∀ l : List Nat,
      (∀ id ∈ l, isOpenUv heap id = true) →
      (∀ id ∈ l, heap id ≠ UpvalObj.openAt slotPtr) →
      (l.map (openLocD heap)).Pairwise (fun a b => b < a) →
      ∀ id ∈ l.dropWhile (fun id => decide (slotPtr < openLocD heap id)),
        openLocD heap id < slotPtr := by
  intro l
  induction l with
  | nil =>
    intro _ _ _ id h
    exact absurd h (List.not_mem_nil id)
  | cons a rest ih =>
    intro hopen hnone hpw id hid
    rw [List.map_cons, List.pairwise_cons] at hpw
    by_cases hp : slotPtr < openLocD heap a
    · rw [List.dropWhile_cons_of_pos (by simpa using hp)] at hid
      exact ih (fun i hi => hopen i (List.mem_cons_of_mem a hi))
        (fun i hi => hnone i (List.mem_cons_of_mem a hi)) hpw.2 id hid
    · rw [List.dropWhile_cons_of_neg (by simpa using hp)] at hid
      have ha : openLocD heap a < slotPtr := by
        have hne : openLocD heap a ≠ slotPtr := by
          intro he
          refine hnone a (List.mem_cons_self a rest) ?_
          rw [← he]
          exact exists_openAt_of_isOpen heap a (hopen a (List.mem_cons_self a rest))
        omega
      rcases List.mem_cons.mp hid with h | h
      · subst h
        exact ha
      · have hlt : openLocD heap id < openLocD heap a :=
          hpw.1 _ (List.mem_map_of_mem _ h)
        omega

/-- C2: under the open-list invariant (all nodes open, slots strictly
decreasing along the list, hence no slot repeated, all ids allocated),
`captureUpvalue` preserves the invariant, returns an open upvalue for the
requested slot that is on the list; when a node for that exact slot
already exists it is returned with the whole state untouched (sharing),
and otherwise the fresh id is spliced in exactly at the position keeping
the slots decreasing, all other upvalues unchanged. -/
theorem captureUpvalue_spec {Dbl : Type} (s : VMState Dbl) (slotPtr : Nat)
    (hinv : OpenInv s) :
    OpenInv (captureUpvalue s slotPtr).2 ∧
    (captureUpvalue s slotPtr).2.upvalHeap (captureUpvalue s slotPtr).1 =
      UpvalObj.openAt slotPtr ∧
    (captureUpvalue s slotPtr).1 ∈ (captureUpvalue s slotPtr).2.openUpvalues ∧
    (∀ id0 ∈ s.openUpvalues, s.upvalHeap id0 = UpvalObj.openAt slotPtr →
      (captureUpvalue s slotPtr).2 = s ∧ (captureUpvalue s slotPtr).1 = id0) ∧
    ((∀ id ∈ s.openUpvalues, s.upvalHeap id ≠ UpvalObj.openAt slotPtr) →
      (captureUpvalue s slotPtr).1 = s.nextUpval ∧
      (captureUpvalue s slotPtr).2.openUpvalues =
        s.openUpvalues.takeWhile
          (fun id => decide (slotPtr < openLocD s.upvalHeap id)) ++
          s.nextUpval ::
            s.openUpvalues.dropWhile
              (fun id => decide (slotPtr < openLocD s.upvalHeap id)) ∧
      (∀ j, j ≠ s.nextUpval →
        (captureUpvalue s slotPtr).2.upvalHeap j = s.upvalHeap j)) := by
  obtain ⟨hopen, hchain, hfresh⟩ := hinv
  have hpw := (chain'_gt_iff_pairwise _).mp hchain
  by_cases hex : ∃ id0 ∈ s.openUpvalues, s.upvalHeap id0 = UpvalObj.openAt slotPtr
  · obtain ⟨id0, hid0, hloc⟩ := hex
    have hcu : captureUpvalue s slotPtr = (id0, s) := by
      unfold captureUpvalue
      rw [captureIds_found s.upvalHeap s.nextUpval slotPtr s.openUpvalues hopen
        hpw id0 hid0 hloc]
      rfl
    refine ⟨?_, ?_, ?_, ?_, ?_⟩
    · rw [hcu]
      exact ⟨hopen, hchain, hfresh⟩
    · rw [hcu]
      exact hloc
    · rw [hcu]
      exact hid0
    · intro id1 hid1 hloc1
      have hcu1 : captureUpvalue s slotPtr = (id1, s) := by
        unfold captureUpvalue
        rw [captureIds_found s.upvalHeap s.nextUpval slotPtr s.openUpvalues hopen
          hpw id1 hid1 hloc1]
        rfl
      rw [hcu1]
      exact ⟨rfl, rfl⟩
    · intro hnone
      exact absurd hloc (hnone id0 hid0)
  · push_neg at hex
    have hcu : captureUpvalue s slotPtr =
        (s.nextUpval,
         { s with
           openUpvalues :=
             s.openUpvalues.takeWhile
               (fun id => decide (slotPtr < openLocD s.upvalHeap id)) ++
               s.nextUpval ::
                 s.openUpvalues.dropWhile
                   (fun id => decide (slotPtr < openLocD s.upvalHeap id))
           upvalHeap := Function.update s.upvalHeap s.nextUpval
             (UpvalObj.openAt slotPtr)
           nextUpval := s.nextUpval + 1 }) := by
      unfold captureUpvalue
      rw [captureIds_notFound s.upvalHeap s.nextUpval slotPtr s.openUpvalues
        hopen hex]
      rfl
    have htk : ∀ id ∈ s.openUpvalues.takeWhile
        (fun id => decide (slotPtr < openLocD s.upvalHeap id)),
        id ∈ s.openUpvalues :=
      fun id hid => (List.takeWhile_sublist _).subset hid
    have hdp : ∀ id ∈ s.openUpvalues.dropWhile
        (fun id => decide (slotPtr < openLocD s.upvalHeap id)),
        id ∈ s.openUpvalues :=
      fun id hid => (List.dropWhile_sublist _).subset hid
    have hmap : (s.openUpvalues.takeWhile
          (fun id => decide (slotPtr < openLocD s.upvalHeap id)) ++
          s.nextUpval ::
            s.openUpvalues.dropWhile
              (fun id => decide (slotPtr < openLocD s.upvalHeap id))).map
          (openLocD (Function.update s.upvalHeap s.nextUpval
            (UpvalObj.openAt slotPtr))) =
        (s.openUpvalues.takeWhile
          (fun id => decide (slotPtr < openLocD s.upvalHeap id))).map
            (openLocD s.upvalHeap) ++
          slotPtr ::
            (s.openUpvalues.dropWhile
              (fun id => decide (slotPtr < openLocD s.upvalHeap id))).map
                (openLocD s.upvalHeap) := by
      rw [List.map_append, List.map_cons]
      congr 1
      · exact List.map_congr_left fun id hid =>
          openLocD_update_ne _ _ _ _ (Nat.ne_of_lt (hfresh id (htk id hid)))
      · congr 1
        · unfold openLocD
          rw [Function.update_same]
        · exact List.map_congr_left fun id hid =>
            openLocD_update_ne _ _ _ _ (Nat.ne_of_lt (hfresh id (hdp id hid)))
    have htk_gt : ∀ x ∈ (s.openUpvalues.takeWhile
        (fun id => decide (slotPtr < openLocD s.upvalHeap id))).map
          (openLocD s.upvalHeap), slotPtr < x := by
      intro x hx
      obtain ⟨id, hid, hxeq⟩ := List.mem_map.mp hx
      have hp := List.mem_takeWhile_imp hid
      rw [← hxeq]
      exact of_decide_eq_true hp
    have hdp_lt : ∀ y ∈ (s.openUpvalues.dropWhile
        (fun id => decide (slotPtr < openLocD s.upvalHeap id))).map
          (openLocD s.upvalHeap), y < slotPtr := by
      intro y hy
      obtain ⟨id, hid, hyeq⟩ := List.mem_map.mp hy
      rw [← hyeq]
      exact dropWhile_locs_lt s.upvalHeap slotPtr s.openUpvalues hopen hex hpw
        id hid
    have hopen2 : ∀ id ∈ s.openUpvalues.takeWhile
        (fun id => decide (slotPtr < openLocD s.upvalHeap id)) ++
        s.nextUpval ::
          s.openUpvalues.dropWhile
            (fun id => decide (slotPtr < openLocD s.upvalHeap id)),
        isOpenUv (Function.update s.upvalHeap s.nextUpval
          (UpvalObj.openAt slotPtr)) id = true := by
      intro id hid
      rcases List.mem_append.mp hid with h | h
      · rw [isOpenUv_update_ne _ _ _ _ (Nat.ne_of_lt (hfresh id (htk id h)))]
        exact hopen id (htk id h)
      · rcases List.mem_cons.mp h with h' | h'
        · subst h'
          unfold isOpenUv
          rw [Function.update_same]
        · rw [isOpenUv_update_ne _ _ _ _ (Nat.ne_of_lt (hfresh id (hdp id h')))]
          exact hopen id (hdp id h')
    have hchain2 : ((s.openUpvalues.takeWhile
        (fun id => decide (slotPtr < openLocD s.upvalHeap id)) ++
        s.nextUpval ::
          s.openUpvalues.dropWhile
            (fun id => decide (slotPtr < openLocD s.upvalHeap id))).map
        (openLocD (Function.update s.upvalHeap s.nextUpval
          (UpvalObj.openAt slotPtr)))).Chain' (fun a b => b < a) := by
      rw [hmap]
      refine (chain'_gt_iff_pairwise _).mpr ?_
      refine List.pairwise_append.mpr ⟨?_, ?_, ?_⟩
      · exact hpw.sublist ((List.takeWhile_sublist _).map _)
      · refine List.pairwise_cons.mpr ⟨hdp_lt, ?_⟩
        exact hpw.sublist ((List.dropWhile_sublist _).map _)
      · intro x hx y hy
        rcases List.mem_cons.mp hy with h' | h'
        · subst h'
          exact htk_gt x hx
        · exact Nat.lt_trans (hdp_lt y h') (htk_gt x hx)
    have hfresh2 : ∀ id ∈ s.openUpvalues.takeWhile
        (fun id => decide (slotPtr < openLocD s.upvalHeap id)) ++
        s.nextUpval ::
          s.openUpvalues.dropWhile
            (fun id => decide (slotPtr < openLocD s.upvalHeap id)),
        id < s.nextUpval + 1 := by
      intro id hid
      rcases List.mem_append.mp hid with h | h
      · exact Nat.lt_trans (hfresh id (htk id h)) (Nat.lt_succ_self _)
      · rcases List.mem_cons.mp h with h' | h'
        · subst h'
          exact Nat.lt_succ_self _
        · exact Nat.lt_trans (hfresh id (hdp id h')) (Nat.lt_succ_self _)
    refine ⟨?_, ?_, ?_, ?_, ?_⟩
    · rw [hcu]
      exact ⟨hopen2, hchain2, hfresh2⟩
    · rw [hcu]
      exact Function.update_same _ _ _
    · rw [hcu]
      exact List.mem_append_right _ (List.mem_cons_self _ _)
    · intro id0 hid0 hloc0
      exact absurd hloc0 (hex id0 hid0)
    · intro _
      refine ⟨by rw [hcu], by rw [hcu], ?_⟩
      intro j hj
      rw [hcu]
      exact Function.update_noteq hj _ _

/-- Witness for C2's sharing case: capturing slot 0 in a state that
already has an open upvalue at slot 0 returns that upvalue's id and
leaves the state untouched. -/
theorem captureUpvalue_spec_witness :
    (captureUpvalue upvalState 0).2 = upvalState ∧
    (captureUpvalue upvalState 0).1 = 0 :=
  (captureUpvalue_spec upvalState 0
      ⟨by decide,
       by
         rw [show List.map (openLocD upvalState.upvalHeap)
             upvalState.openUpvalues = [0] from rfl]
         exact List.chain'_singleton 0,
       by decide⟩).2.2.2.1 0 (by decide) (by decide)

/-- Dropping while two pointwise-equal predicates hold gives the same
suffix. -/
theorem dropWhile_congr' {α : Type} (p q : α → Bool) :
    ∀ l : List α, (∀ x ∈ l, p x = q x) → l.dropWhile p = l.dropWhile q := by
  intro l
  induction l with
  | nil => intro _; rfl
  | cons a l ih =>
    intro h
    rw [List.dropWhile_cons, List.dropWhile_cons, h a (List.mem_cons_self a l)]
    by_cases hq : q a = true
    · rw [if_pos hq, if_pos hq]
      exact ih fun x hx => h x (List.mem_cons_of_mem a hx)
    · rw [if_neg hq, if_neg hq]

/-- Reading below the removed last element is unchanged. -/
theorem getD_dropLast {α : Type} (l : List α) (i : Nat) (d : α)
    (h : i + 1 < l.length) : l.dropLast.getD i d = l.getD i d := by
  rw [List.getD_eq_getElem?_getD, List.getD_eq_getElem?_getD,
    List.dropLast_eq_take, List.getElem?_take_of_lt (by omega)]

/-- `closeUpvalues`' loop never touches an upvalue outside its list. -/
theorem closeList_untouched {Dbl : Type} (stack : List (Value Dbl))
    (last : Nat) :
    ∀ (l : List Nat) (heap : Nat → UpvalObj Dbl) (j : Nat), j ∉ l →
      (closeList stack last l heap).2 j = heap j := by
  intro l
  induction l with
  | nil =>
    intro heap j _
    rfl
  | cons id rest ih =>
    intro heap j h
    have hj : j ≠ id := fun he => h (he ▸ List.mem_cons_self id rest)
    have hj2 : j ∉ rest := fun he => h (List.mem_cons_of_mem id he)
    cases hh : heap id with
    | closed v => simp [closeList, hh]
    | openAt lh =>
      by_cases hle : last ≤ lh
      · simp only [closeList]
        rw [hh]
        simp only [hle, if_true]
        rw [ih _ j hj2]
        exact Function.update_noteq hj _ _
      · simp [closeList, hh, hle]

/-- The loop pops exactly the prefix of nodes whose slots are at or above
the closing point. -/
theorem closeList_openList {Dbl : Type} (stack : List (Value Dbl))
    (last : Nat) :
    ∀ (l : List Nat) (heap : Nat → UpvalObj Dbl),
      (∀ id ∈ l, isOpenUv heap id = true) →
      ((l.map (openLocD heap)).Pairwise (fun a b => b < a)) →
      (closeList stack last l heap).1 =
        l.dropWhile (fun id => decide (last ≤ openLocD heap id)) := by
  intro l
  induction l with
  | nil =>
    intro heap _ _
    rfl
  | cons id rest ih =>
    intro heap hopen hpw
    rw [List.map_cons, List.pairwise_cons] at hpw
    have hnotin : id ∉ rest := fun h =>
      lt_irrefl _ (hpw.1 _ (List.mem_map_of_mem _ h))
    have hlh : heap id = UpvalObj.openAt (openLocD heap id) :=
      exists_openAt_of_isOpen heap id (hopen id (List.mem_cons_self id rest))
    by_cases hle : last ≤ openLocD heap id
    · have heq : ∀ x ∈ rest,
          openLocD (Function.update heap id
            (UpvalObj.closed (stack.getD (openLocD heap id) Value.nil))) x =
            openLocD heap x :=
        fun x hx => openLocD_update_ne _ _ _ _
          (fun he => by subst he; exact hnotin hx)
      have hrec := ih (Function.update heap id
          (UpvalObj.closed (stack.getD (openLocD heap id) Value.nil)))
        (fun x hx => by
          rw [isOpenUv_update_ne _ _ _ _ (fun he => by subst he; exact hnotin hx)]
          exact hopen x (List.mem_cons_of_mem id hx))
        (by rw [List.map_congr_left heq]; exact hpw.2)
      simp only [closeList]
      rw [hlh]
      simp only [hle, if_true]
      rw [hrec, List.dropWhile_cons_of_pos (by simpa using hle)]
      exact dropWhile_congr' _ _ rest fun x hx => by
        rw [heq x hx]
    · simp only [closeList]
      rw [hlh]
      simp only [hle, if_false]
      rw [List.dropWhile_cons_of_neg (by simpa using hle)]

/-- The loop closes every node whose slot is at or above the closing
point over the value that slot holds. -/
theorem closeList_closes {Dbl : Type} (stack : List (Value Dbl))
    (last : Nat) :
    ∀ (l : List Nat) (heap : Nat → UpvalObj Dbl),
      (∀ id ∈ l, isOpenUv heap id = true) →
      ((l.map (openLocD heap)).Pairwise (fun a b => b < a)) →
      ∀ id0 ∈ l, last ≤ openLocD heap id0 →
        (closeList stack last l heap).2 id0 =
          UpvalObj.closed (stack.getD (openLocD heap id0) Value.nil) := by
  intro l
  induction l with
  | nil =>
    intro heap _ _ id0 h
    exact absurd h (List.not_mem_nil id0)
  | cons id rest ih =>
    intro heap hopen hpw id0 hid0 hle0
    rw [List.map_cons, List.pairwise_cons] at hpw
    have hnotin : id ∉ rest := fun h =>
      lt_irrefl _ (hpw.1 _ (List.mem_map_of_mem _ h))
    have hlh : heap id = UpvalObj.openAt (openLocD heap id) :=
      exists_openAt_of_isOpen heap id (hopen id (List.mem_cons_self id rest))
    rcases List.mem_cons.mp hid0 with h | h
    · subst h
      simp only [closeList]
      rw [hlh]
      simp only [hle0, if_true]
      rw [closeList_untouched stack last rest _ id0 hnotin]
      exact Function.update_same _ _ _
    · have hlt : openLocD heap id0 < openLocD heap id :=
        hpw.1 _ (List.mem_map_of_mem _ h)
      have hle : last ≤ openLocD heap id := by omega
      have heq : ∀ x ∈ rest,
          openLocD (Function.update heap id
            (UpvalObj.closed (stack.getD (openLocD heap id) Value.nil))) x =
            openLocD heap x :=
        fun x hx => openLocD_update_ne _ _ _ _
          (fun he => by subst he; exact hnotin hx)
      have hrec := ih (Function.update heap id
          (UpvalObj.closed (stack.getD (openLocD heap id) Value.nil)))
        (fun x hx => by
          rw [isOpenUv_update_ne _ _ _ _ (fun he => by subst he; exact hnotin hx)]
          exact hopen x (List.mem_cons_of_mem id hx))
        (by rw [List.map_congr_left heq]; exact hpw.2)
        id0 h (by rw [heq id0 h]; exact hle0)
      simp only [closeList]
      rw [hlh]
      simp only [hle, if_true]
      rw [hrec, heq id0 h]

/-- C1: OP_RETURN closes every open upvalue whose stack slot is at or
above the returning frame's base (the slot's value moves into the
upvalue's owned `closed` field and its `location` is redirected there, so
reading through the upvalue afterwards yields the value the slot held at
the moment of the pop), advances the open-list head past them, pops the
frame, and then either halts with Ok after discarding the remaining top
value when no frame remains, or resets `stack_top` to the frame's base
and pushes the result. -/
theorem opReturn_spec {Dbl : Type} (s : VMState Dbl) (f : CallFrame)
    (rest' : List CallFrame) (hf : s.frames = rest' ++ [f])
    (hinv : OpenInv s)
    (hlocs : ∀ id ∈ s.openUpvalues, openLocD s.upvalHeap id + 1 < s.stack.length)
    (hbase : f.slots < s.stack.length) :
    (∀ id ∈ s.openUpvalues, f.slots ≤ openLocD s.upvalHeap id →
      (execOpReturn s).state.upvalHeap id =
        UpvalObj.closed (s.stack.getD (openLocD s.upvalHeap id) Value.nil) ∧
      upvalRead (execOpReturn s).state id =
        s.stack.getD (openLocD s.upvalHeap id) Value.nil) ∧
    (execOpReturn s).state.openUpvalues =
      s.openUpvalues.dropWhile
        (fun id => decide (f.slots ≤ openLocD s.upvalHeap id)) ∧
    (execOpReturn s).state.frames = rest' ∧
    (rest' = [] →
      execOpReturn s = ExecResult.okHalt (execOpReturn s).state ∧
      (execOpReturn s).state.stack = s.stack.dropLast.dropLast) ∧
    (rest' ≠ [] →
      execOpReturn s = ExecResult.next (execOpReturn s).state ∧
      (execOpReturn s).state.stack =
        s.stack.take f.slots ++ [s.stack.getLastD Value.nil]) := by
  obtain ⟨hopen, hchain, hfresh⟩ := hinv
  have hpw := (chain'_gt_iff_pairwise _).mp hchain
  have hcf : currentFrame s = f := by
    unfold currentFrame
    rw [hf]
    exact List.getLastD_concat _ _ _
  have hframes3 : s.frames.dropLast = rest' := by
    rw [hf]
    exact List.dropLast_concat
  have hexec : execOpReturn s =
      if rest'.isEmpty = true then
        ExecResult.okHalt
          { s with
            stack := s.stack.dropLast.dropLast
            frames := rest'
            openUpvalues :=
              (closeList s.stack.dropLast f.slots s.openUpvalues s.upvalHeap).1
            upvalHeap :=
              (closeList s.stack.dropLast f.slots s.openUpvalues s.upvalHeap).2 }
      else
        ExecResult.next
          { s with
            stack := s.stack.dropLast.take f.slots ++ [s.stack.getLastD Value.nil]
            frames := rest'
            openUpvalues :=
              (closeList s.stack.dropLast f.slots s.openUpvalues s.upvalHeap).1
            upvalHeap :=
              (closeList s.stack.dropLast f.slots s.openUpvalues s.upvalHeap).2 } := by
    simp only [execOpReturn, closeUpvalues, pop, push, hcf, hframes3]
  have hheap : (execOpReturn s).state.upvalHeap =
      (closeList s.stack.dropLast f.slots s.openUpvalues s.upvalHeap).2 := by
    rw [hexec]
    by_cases h : rest'.isEmpty = true <;> simp [h, ExecResult.state]
  have hopenl : (execOpReturn s).state.openUpvalues =
      (closeList s.stack.dropLast f.slots s.openUpvalues s.upvalHeap).1 := by
    rw [hexec]
    by_cases h : rest'.isEmpty = true <;> simp [h, ExecResult.state]
  have hframesr : (execOpReturn s).state.frames = rest' := by
    rw [hexec]
    by_cases h : rest'.isEmpty = true <;> simp [h, ExecResult.state]
  refine ⟨?_, ?_, hframesr, ?_, ?_⟩
  · intro id hid hle
    have h1 : (execOpReturn s).state.upvalHeap id =
        UpvalObj.closed (s.stack.getD (openLocD s.upvalHeap id) Value.nil) := by
      rw [hheap,
        closeList_closes s.stack.dropLast f.slots s.openUpvalues s.upvalHeap
          hopen hpw id hid hle,
        getD_dropLast _ _ _ (hlocs id hid)]
    refine ⟨h1, ?_⟩
    unfold upvalRead
    rw [h1]
  · rw [hopenl]
    exact closeList_openList s.stack.dropLast f.slots s.openUpvalues
      s.upvalHeap hopen hpw
  · intro hre
    have hisE : rest'.isEmpty = true := by simp [hre]
    constructor
    · rw [hexec, if_pos hisE]
      simp [ExecResult.state]
    · rw [hexec, if_pos hisE]
      simp [ExecResult.state]
  · intro hre
    have hisE : ¬rest'.isEmpty = true := by
      rw [List.isEmpty_iff]
      exact hre
    have htake : s.stack.dropLast.take f.slots = s.stack.take f.slots := by
      rw [List.dropLast_eq_take, List.take_take]
      congr 1
      omega
    constructor
    · rw [hexec, if_neg hisE]
      simp [ExecResult.state]
    · rw [hexec, if_neg hisE]
      simp [ExecResult.state, htake]

/-- Witness for C1: returning from the callee frame based at slot 1
closes the open upvalue over slot 1, which afterwards reads as the value
that slot held (the number 2). -/
theorem opReturn_spec_witness :
    (execOpReturn returnState).state.upvalHeap 0 =
      UpvalObj.closed
        (returnState.stack.getD (openLocD returnState.upvalHeap 0) Value.nil) ∧
    upvalRead (execOpReturn returnState).state 0 =
      returnState.stack.getD (openLocD returnState.upvalHeap 0) Value.nil :=
  (opReturn_spec returnState ⟨1, 5, 1⟩ [⟨0, 0, 0⟩] rfl
      ⟨by decide,
       by
         rw [show List.map (openLocD returnState.upvalHeap)
             returnState.openUpvalues = [1] from rfl]
         exact List.chain'_singleton 1,
       by decide⟩
      (by decide) (by decide)).1 0 (by decide) (by decide)

end Clox
